import Mathlib

/-!
Verification of the PDF accessibility analysis engine
(`src/pdf_accessibility_analyzer/main.py`).

The Python source is shallowly embedded: strings are `String` / `List Char`,
Python floats appearing in data records (coordinates, font sizes, colors) are
modelled as `ℚ`, and the WCAG colorimetric computations (which involve the
real exponent 2.4) are modelled over `ℝ`.  Stateful accumulation
(`defaultdict`s, python `set`s) is modelled with association lists updated in
iteration order; python sets of strings are modelled as duplicate-free lists
in source-literal order.  All code paths needed by the claims are translated
from the source; `try/except` blocks never fire in the model because the
embedded operations are total.
-/

namespace PdfA11y

/-! ## Basic string utilities (python `in`, `replace`, `strip`, `split`) -/

/-- Boolean prefix test on character lists (`needle` is a prefix of `hay`). -/
def isPrefixB : List Char → List Char → Bool
  | [], _ => true
  | _ :: _, [] => false
  | a :: as, b :: bs => a = b && isPrefixB as bs

/-- Python's substring containment `needle in hay`. -/
def hasSubstr (needle : List Char) : List Char → Bool
  | [] => needle.isEmpty
  | h :: t => isPrefixB needle (h :: t) || hasSubstr needle t

/-- `needle in hay` on `String`s, as used by the analyzer. -/
def pyIn (needle hay : String) : Bool :=
  hasSubstr needle.data hay.data

/-- One fuel step of python `str.replace`: scans left to right, replacing each
non-overlapping occurrence.  Fuel = input length suffices since every step
consumes at least one character. -/
def replaceAllAux (needle repl : List Char) : ℕ → List Char → List Char
  | 0, l => l
  | _, [] => []
  | fuel + 1, h :: t =>
    if isPrefixB needle (h :: t) && !needle.isEmpty then
      repl ++ replaceAllAux needle repl fuel (List.drop (needle.length - 1) t)
    else
      h :: replaceAllAux needle repl fuel t

/-- Python `hay.replace(needle, repl)` (all occurrences, left to right). -/
def replaceAll (needle repl hay : List Char) : List Char :=
  replaceAllAux needle repl hay.length hay

/-- Whitespace test used by python `str.strip` / `str.split` (ASCII range;
the analyzer's guards only meet ASCII whitespace). -/
def isSpaceChar (c : Char) : Bool := c.isWhitespace

/-- Python `str.strip()` on a character list. -/
def trimList (l : List Char) : List Char :=
  ((l.dropWhile isSpaceChar).reverse.dropWhile isSpaceChar).reverse

/-- Auxiliary for python `str.split()` (split on whitespace runs, dropping
empty tokens); `acc` holds the current token reversed. -/
def splitWSAux : List Char → List Char → List (List Char)
  | [], acc => if acc.isEmpty then [] else [acc.reverse]
  | c :: t, acc =>
    if isSpaceChar c then
      if acc.isEmpty then splitWSAux t [] else acc.reverse :: splitWSAux t []
    else splitWSAux t (c :: acc)

/-- Python `text.split()`. -/
def splitWS (l : List Char) : List (List Char) := splitWSAux l []

/-- Python `' '.join(tokens)`. -/
def joinSpace : List (List Char) → List Char
  | [] => []
  | [w] => w
  | w :: ws => w ++ ' ' :: joinSpace ws

/-- The trailing-punctuation set of `normalize_text_for_grouping`
(`text.rstrip('.,;:!?')`). -/
def trailPunct : List Char := ['.', ',', ';', ':', '!', '?']

/-- Python `text.rstrip('.,;:!?')`. -/
def rstripPunct (l : List Char) : List Char :=
  (l.reverse.dropWhile (fun c => c ∈ trailPunct)).reverse

/-- Build a `String` back from a character list. -/
def strOf (l : List Char) : String := ⟨l⟩

/-- Python slicing `s[:n]` on strings. -/
def takeStr (s : String) (n : ℕ) : String := strOf (s.data.take n)

/-- Python `str.strip()` on a `String`. -/
def pyStrip (s : String) : String := strOf (trimList s.data)

/-! ## Rounding and fixed-point formatting

`round(x, 2)` and `f"{x:.1f}"` in CPython round half to even; the analyzer
only ever formats values for which the tie case is exact in our `ℚ` model. -/

/-- Round a rational to the nearest integer, ties to even. -/
def roundHalfEvenQ (q : ℚ) : ℤ :=
  let f : ℤ := ⌊q⌋
  let r : ℚ := q - (f : ℚ)
  if r < 1/2 then f
  else if 1/2 < r then f + 1
  else if f % 2 = 0 then f else f + 1

/-- Python `round(y, 2)` (used for line-cache keys and `processed_lines`). -/
def roundQ2 (q : ℚ) : ℚ := ((roundHalfEvenQ (q * 100) : ℤ) : ℚ) / 100

/-- Python `f"{q:.1f}"`. -/
def formatFixed1 (q : ℚ) : String :=
  let n : ℤ := roundHalfEvenQ (q * 10)
  if n < 0 then "-" ++ toString ((-n) / 10) ++ "." ++ toString ((-n) % 10)
  else toString (n / 10) ++ "." ++ toString (n % 10)

/-! ## Text Normalizer (`remove_duplicate_chars`, `count_words`,
`normalize_text_for_grouping`) -/

/-- Run-length collapse: every maximal run of identical characters collapses
to a single character (the loop at the top of `remove_duplicate_chars`; which
representative of a run survives is immaterial since all its characters are
equal). -/
def collapseRuns : List Char → List Char
  | [] => []
  | [c] => [c]
  | c :: d :: rest =>
    if c = d then collapseRuns (d :: rest) else c :: collapseRuns (d :: rest)

/-- `remove_duplicate_chars` on character lists: run-length collapse, then, if
the result (`cleaned` in the source) has even length and its first half equals
its second half, keep only the first half. -/
def remove_duplicate_chars (l : List Char) : List Char :=
  if l.length < 2 then l
  else if (collapseRuns l).length % 2 = 0 ∧
      (collapseRuns l).take ((collapseRuns l).length / 2) =
        (collapseRuns l).drop ((collapseRuns l).length / 2) then
    (collapseRuns l).take ((collapseRuns l).length / 2)
  else collapseRuns l

/-- `remove_duplicate_chars` on `String`s. -/
def remove_duplicate_chars_str (s : String) : String :=
  strOf (remove_duplicate_chars s.data)

/-- `\w` of the `re` module, restricted to the ASCII range (the claims never
depend on non-ASCII word constituents). -/
def isWordChar (c : Char) : Bool := c.isAlphanum || c = '_'

/-- Count the maximal `\w+` runs of a character list (`re.findall(r'\b\w+\b')`
returns exactly the maximal word-character runs). -/
def countWordRuns : List Char → Bool → ℕ
  | [], _ => 0
  | c :: t, inWord =>
    if isWordChar c then (if inWord then 0 else 1) + countWordRuns t true
    else countWordRuns t false

/-- `count_words`: strip, deduplicate, count word runs; 0 for empty input. -/
def count_words (t : String) : ℕ :=
  if t = "" ∨ trimList t.data = [] then 0
  else
    let normalized := remove_duplicate_chars (trimList t.data)
    if normalized = [] then 0 else countWordRuns normalized false

/-- `normalize_text_for_grouping`: deduplicate, collapse whitespace runs,
lowercase (`Char.toLower`; ASCII case mapping, which covers every string the
claims exercise), strip trailing punctuation. -/
def normalize_text_for_grouping (t : String) : String :=
  if t = "" then t
  else
    let d := remove_duplicate_chars t.data
    let joined := joinSpace (splitWS d)
    let lowered := joined.map Char.toLower
    strOf (rstripPunct lowered)

/-! ## C1: dedup idempotence -/

/-- The run collapse of a nonempty list keeps the run's character as head. -/
theorem head_collapseRuns : ∀ (d : Char) (m : List Char),
    (collapseRuns (d :: m)).head? = some d
  | _, [] => by simp [collapseRuns]
  | d, e :: es => by
    by_cases hde : d = e
    · rw [show collapseRuns (d :: e :: es) = collapseRuns (e :: es) by
        simp [collapseRuns, hde]]
      rw [head_collapseRuns e es, hde]
    · simp [collapseRuns, hde]

theorem collapseRuns_chain' : ∀ l : List Char, (collapseRuns l).Chain' (· ≠ ·)
  | [] => by simp [collapseRuns]
  | [c] => by simp [collapseRuns]
  | c :: d :: rest => by
    have ih := collapseRuns_chain' (d :: rest)
    by_cases h : c = d
    · simpa [collapseRuns, h] using ih
    · rw [show collapseRuns (c :: d :: rest) = c :: collapseRuns (d :: rest) by
        simp [collapseRuns, h]]
      have hh := head_collapseRuns d rest
      rcases hrest : collapseRuns (d :: rest) with _ | ⟨e, es⟩
      · simp
      · rw [hrest] at hh ih
        simp only [List.head?_cons, Option.some.injEq] at hh
        exact List.chain'_cons.mpr ⟨by rw [hh]; exact h, ih⟩

theorem collapseRuns_eq_self : ∀ {l : List Char}, l.Chain' (· ≠ ·) → collapseRuns l = l
  | [], _ => rfl
  | [c], _ => rfl
  | c :: d :: rest, h => by
    rcases List.chain'_cons.mp h with ⟨hcd, hrest⟩
    simp [collapseRuns, hcd, collapseRuns_eq_self hrest]

/-- The result of `remove_duplicate_chars` never contains two equal adjacent
characters. -/
theorem remove_duplicate_chars_chain' (l : List Char) :
    (remove_duplicate_chars l).Chain' (· ≠ ·) := by
  unfold remove_duplicate_chars
  by_cases hl : l.length < 2
  · rw [if_pos hl]
    match l, hl with
    | [], _ => simp
    | [c], _ => simp
  · rw [if_neg hl]
    have hc := collapseRuns_chain' l
    by_cases hm : (collapseRuns l).length % 2 = 0 ∧
        (collapseRuns l).take ((collapseRuns l).length / 2) =
          (collapseRuns l).drop ((collapseRuns l).length / 2)
    · rw [if_pos hm]
      have hsplit := List.take_append_drop ((collapseRuns l).length / 2) (collapseRuns l)
      rw [← hsplit] at hc
      exact (List.chain'_append.mp hc).1
    · rw [if_neg hm]
      exact hc

/-- C1 (amended): applying `remove_duplicate_chars` a second time is the
identity whenever the mirror-halving rule does not apply to the first
result. -/
theorem remove_duplicate_chars_idem_of_not_mirror (s : String)
    (h : ¬((remove_duplicate_chars_str s).length % 2 = 0 ∧
        (remove_duplicate_chars_str s).data.take
            ((remove_duplicate_chars_str s).length / 2) =
          (remove_duplicate_chars_str s).data.drop
            ((remove_duplicate_chars_str s).length / 2))) :
    remove_duplicate_chars_str (remove_duplicate_chars_str s) =
      remove_duplicate_chars_str s := by
  have hlen : (remove_duplicate_chars_str s).length =
      (remove_duplicate_chars s.data).length := rfl
  have hdata : (remove_duplicate_chars_str s).data = remove_duplicate_chars s.data := rfl
  set m := remove_duplicate_chars s.data with hm
  rw [hlen, hdata] at h
  show strOf (remove_duplicate_chars m) = strOf m
  congr 1
  by_cases h2 : m.length < 2
  · unfold remove_duplicate_chars
    rw [if_pos h2]
  · have hchain : m.Chain' (· ≠ ·) := remove_duplicate_chars_chain' s.data
    unfold remove_duplicate_chars
    rw [if_neg h2, collapseRuns_eq_self hchain, if_neg h]

/-- Witness for the amended C1 theorem at `s = "AAB"`. -/
theorem remove_duplicate_chars_idem_witness :
    remove_duplicate_chars_str (remove_duplicate_chars_str "AAB") =
      remove_duplicate_chars_str "AAB" :=
  remove_duplicate_chars_idem_of_not_mirror "AAB" (by decide)

/-- C1 counterexample: on `"ABABABAB"` the two-stage rule is not idempotent
(`deduplicate` gives `"ABAB"`, a second application gives `"AB"`). -/
theorem remove_duplicate_chars_not_idempotent :
    remove_duplicate_chars_str (remove_duplicate_chars_str "ABABABAB") ≠
      remove_duplicate_chars_str "ABABABAB" := by decide

/-! ## Color Model (`normalize_color`, `calculate_luminance`,
`calculate_contrast_ratio`) -/

/-- The color encodings `normalize_color` inspects: a bare number, a
tuple/list of numbers (any arity; arities other than 1, 3, 4 are the
"unrecognized shapes"), or `None`. -/
inductive ColorEnc where
  | scalar (v : ℚ)
  | tuple (components : List ℚ)
  | absent
deriving DecidableEq

/-- `normalize_color`: grayscale scalars and 1-tuples, RGB 3-tuples, CMYK
4-tuples (`r=(1-c)(1-k)` etc.); every other shape and `None` fall through to
black `(0,0,0)`. -/
def normalize_color : ColorEnc → ℚ × ℚ × ℚ
  | .scalar v => (v, v, v)
  | .tuple [g] => (g, g, g)
  | .tuple [r, g, b] => (r, g, b)
  | .tuple [c, m, y, k] => ((1 - c) * (1 - k), (1 - m) * (1 - k), (1 - y) * (1 - k))
  | .tuple _ => (0, 0, 0)
  | .absent => (0, 0, 0)

/-- sRGB channel linearization of `calculate_luminance`:
`c/12.92` if `c ≤ 0.03928`, else `((c+0.055)/1.055)^2.4`. -/
noncomputable def srgb_to_linear (c : ℝ) : ℝ :=
  if c ≤ 0.03928 then c / 12.92 else ((c + 0.055) / 1.055) ^ (2.4 : ℝ)

/-- `calculate_luminance`: WCAG relative luminance
`0.2126 r + 0.7152 g + 0.0722 b` of the linearized channels. -/
noncomputable def calculate_luminance (c : ℝ × ℝ × ℝ) : ℝ :=
  0.2126 * srgb_to_linear c.1 + 0.7152 * srgb_to_linear c.2.1 +
    0.0722 * srgb_to_linear c.2.2

/-- `calculate_contrast_ratio`: `(L_lighter + 0.05) / (L_darker + 0.05)`. -/
noncomputable def calculate_contrast_ratio (c₁ c₂ : ℝ × ℝ × ℝ) : ℝ :=
  (max (calculate_luminance c₁) (calculate_luminance c₂) + 0.05) /
    (min (calculate_luminance c₁) (calculate_luminance c₂) + 0.05)

/-- A real RGB triple with all components in `[0,1]` (the color domain of the
spec's data model). -/
def inUnit3 (c : ℝ × ℝ × ℝ) : Prop :=
  (0 ≤ c.1 ∧ c.1 ≤ 1) ∧ (0 ≤ c.2.1 ∧ c.2.1 ≤ 1) ∧ (0 ≤ c.2.2 ∧ c.2.2 ≤ 1)

theorem srgb_to_linear_nonneg {c : ℝ} (h : 0 ≤ c) : 0 ≤ srgb_to_linear c := by
  unfold srgb_to_linear
  by_cases hb : c ≤ 0.03928
  · rw [if_pos hb]; positivity
  · rw [if_neg hb]
    exact Real.rpow_nonneg (div_nonneg (by linarith) (by norm_num)) _

theorem calculate_luminance_nonneg {c : ℝ × ℝ × ℝ} (h : inUnit3 c) :
    0 ≤ calculate_luminance c := by
  obtain ⟨⟨h1, _⟩, ⟨h2, _⟩, ⟨h3, _⟩⟩ := h
  unfold calculate_luminance
  have := srgb_to_linear_nonneg h1
  have := srgb_to_linear_nonneg h2
  have := srgb_to_linear_nonneg h3
  nlinarith

/-! ## C3: contrast symmetry and lower bound -/

/-- C3: for colors with components in `[0,1]`, `calculate_contrast_ratio` is
symmetric in its two arguments and always at least `1.0`. -/
theorem contrast_ratio_symm_ge_one (a b : ℝ × ℝ × ℝ)
    (ha : inUnit3 a) (hb : inUnit3 b) :
    calculate_contrast_ratio a b = calculate_contrast_ratio b a ∧
      1 ≤ calculate_contrast_ratio a b := by
  constructor
  · unfold calculate_contrast_ratio
    rw [max_comm, min_comm]
  · have h1 := calculate_luminance_nonneg ha
    have h2 := calculate_luminance_nonneg hb
    unfold calculate_contrast_ratio
    have hmin : (0:ℝ) < min (calculate_luminance a) (calculate_luminance b) + 0.05 := by
      have := le_min h1 h2
      linarith
    rw [le_div_iff hmin]
    have := min_le_max (a := calculate_luminance a) (b := calculate_luminance b)
    linarith

/-- Witness for C3 at black and white. -/
theorem contrast_ratio_symm_ge_one_witness :
    calculate_contrast_ratio (0, 0, 0) (1, 1, 1) =
        calculate_contrast_ratio (1, 1, 1) (0, 0, 0) ∧
      1 ≤ calculate_contrast_ratio (0, 0, 0) (1, 1, 1) :=
  contrast_ratio_symm_ge_one (0, 0, 0) (1, 1, 1)
    (by norm_num [inUnit3]) (by norm_num [inUnit3])

/-! ## C4: luminance on grays across the linearization threshold -/

theorem calculate_luminance_gray (v : ℝ) :
    calculate_luminance (v, v, v) = srgb_to_linear v := by
  unfold calculate_luminance
  ring

/-- C4 counterexample: the gray luminance is **not** non-decreasing on
`[0,1]`: the piecewise linearization jumps down just above the `0.03928`
threshold (`0.03928 ↦ 0.0030402…` but `0.039281 ↦ 0.0030396…`). -/
theorem calculate_luminance_gray_not_monotone :
    (0.03928 : ℝ) ≤ 0.039281 ∧ (0.039281 : ℝ) ≤ 1 ∧
      calculate_luminance (0.039281, 0.039281, 0.039281) <
        calculate_luminance (0.03928, 0.03928, 0.03928) := by
  refine ⟨by norm_num, by norm_num, ?_⟩
  rw [calculate_luminance_gray, calculate_luminance_gray]
  unfold srgb_to_linear
  rw [if_pos (by norm_num : (0.03928 : ℝ) ≤ 0.03928),
    if_neg (by norm_num : ¬((0.039281 : ℝ) ≤ 0.03928))]
  set x : ℝ := (0.039281 + 0.055) / 1.055 with hx
  have hx0 : 0 ≤ x := by rw [hx]; norm_num
  have h5 : (x ^ (2.4 : ℝ)) ^ (5 : ℕ) = x ^ (12 : ℕ) := by
    rw [← Real.rpow_natCast (x ^ (2.4 : ℝ)) 5, ← Real.rpow_mul hx0,
      ← Real.rpow_natCast x 12]
    norm_num
  have hlt : (x ^ (2.4 : ℝ)) ^ (5 : ℕ) < ((0.03928 : ℝ) / 12.92) ^ (5 : ℕ) := by
    rw [h5, hx]
    norm_num
  exact lt_of_pow_lt_pow_left 5 (by norm_num) hlt

/-- C4 (amended): the gray luminance is non-decreasing on each linearization
branch, i.e. whenever `v₁` and `v₂` do not straddle the `0.03928`
threshold. -/
theorem calculate_luminance_gray_mono (v₁ v₂ : ℝ)
    (h0 : 0 ≤ v₁) (h12 : v₁ ≤ v₂) (h1 : v₂ ≤ 1)
    (hbranch : v₂ ≤ 0.03928 ∨ 0.03928 < v₁) :
    calculate_luminance (v₁, v₁, v₁) ≤ calculate_luminance (v₂, v₂, v₂) := by
  rw [calculate_luminance_gray, calculate_luminance_gray]
  unfold srgb_to_linear
  rcases hbranch with h | h
  · rw [if_pos (le_trans h12 h), if_pos h]
    gcongr
  · rw [if_neg (by linarith), if_neg (by linarith)]
    refine Real.rpow_le_rpow (div_nonneg (by linarith) (by norm_num)) ?_ (by norm_num)
    gcongr

/-- Witness for the amended C4 theorem on the linear branch. -/
theorem calculate_luminance_gray_mono_witness :
    calculate_luminance ((0 : ℝ), 0, 0) ≤ calculate_luminance (0.03, 0.03, 0.03) :=
  calculate_luminance_gray_mono 0 0.03 (by norm_num) (by norm_num) (by norm_num)
    (Or.inl (by norm_num))

/-! ## C5: normalize_color -/

/-- All numeric components of a color encoding lie in `[0,1]`. -/
def encInUnit : ColorEnc → Prop
  | .scalar v => 0 ≤ v ∧ v ≤ 1
  | .tuple l => ∀ x ∈ l, 0 ≤ x ∧ x ≤ 1
  | .absent => True

/-- A rational RGB triple with all components in `[0,1]`. -/
def inUnitQ3 (c : ℚ × ℚ × ℚ) : Prop :=
  (0 ≤ c.1 ∧ c.1 ≤ 1) ∧ (0 ≤ c.2.1 ∧ c.2.1 ≤ 1) ∧ (0 ≤ c.2.2 ∧ c.2.2 ≤ 1)

instance (c : ℚ × ℚ × ℚ) : Decidable (inUnitQ3 c) := by
  unfold inUnitQ3; infer_instance

/-- C5 counterexample: `normalize_color` does not clamp: the grayscale scalar
`2` yields `(2,2,2)`, outside `[0,1]^3`. -/
theorem normalize_color_not_bounded :
    ¬ inUnitQ3 (normalize_color (ColorEnc.scalar 2)) := by decide

/-- C5 (amended): when every numeric component of the input lies in `[0,1]`,
`normalize_color` returns an RGB triple in `[0,1]^3`; CMYK converts via
`r=(1-c)(1-k)`, `g=(1-m)(1-k)`, `b=(1-y)(1-k)`; `None` and unrecognized
shapes yield black. -/
theorem normalize_color_spec (e : ColorEnc) (he : encInUnit e) :
    inUnitQ3 (normalize_color e) ∧
      (∀ c m y k, e = .tuple [c, m, y, k] →
        normalize_color e = ((1 - c) * (1 - k), (1 - m) * (1 - k), (1 - y) * (1 - k))) ∧
      (e = .absent → normalize_color e = (0, 0, 0)) ∧
      (∀ l, e = .tuple l → l.length ≠ 1 → l.length ≠ 3 → l.length ≠ 4 →
        normalize_color e = (0, 0, 0)) := by
  cases e with
  | scalar v =>
    obtain ⟨h0, h1⟩ := he
    refine ⟨⟨⟨h0, h1⟩, ⟨h0, h1⟩, h0, h1⟩, ?_, ?_, ?_⟩ <;> intros <;> simp_all
  | absent =>
    refine ⟨by norm_num [normalize_color, inUnitQ3], ?_, fun _ => rfl, ?_⟩ <;>
      intros <;> simp_all
  | tuple l =>
    have hball : ∀ x ∈ l, 0 ≤ x ∧ x ≤ 1 := he
    have hconj2 : ∀ c m y k, ColorEnc.tuple l = .tuple [c, m, y, k] →
        normalize_color (ColorEnc.tuple l) =
          ((1 - c) * (1 - k), (1 - m) * (1 - k), (1 - y) * (1 - k)) := by
      intro c m y k hmatch
      injection hmatch with hl
      subst hl
      rfl
    have hconj3 : ColorEnc.tuple l = ColorEnc.absent →
        normalize_color (ColorEnc.tuple l) = (0, 0, 0) := by
      intro hmatch
      exact absurd hmatch (by simp)
    have hconj4 : ∀ l', ColorEnc.tuple l = .tuple l' → l'.length ≠ 1 →
        l'.length ≠ 3 → l'.length ≠ 4 →
        normalize_color (ColorEnc.tuple l) = (0, 0, 0) := by
      intro l' hmatch h1 h3 h4
      injection hmatch with hl
      subst hl
      rcases l with _ | ⟨a, _ | ⟨b, _ | ⟨c, _ | ⟨d, _ | t⟩⟩⟩⟩
      · rfl
      · exact absurd rfl h1
      · rfl
      · exact absurd rfl h3
      · exact absurd rfl h4
      · rfl
    refine ⟨?_, hconj2, hconj3, hconj4⟩
    rcases l with _ | ⟨a, _ | ⟨b, _ | ⟨c, _ | ⟨d, _ | t⟩⟩⟩⟩
    · exact by norm_num [normalize_color, inUnitQ3]
    · obtain ⟨ha0, ha1⟩ := hball a (by simp)
      exact ⟨⟨ha0, ha1⟩, ⟨ha0, ha1⟩, ha0, ha1⟩
    · exact by norm_num [normalize_color, inUnitQ3]
    · obtain ⟨ha0, ha1⟩ := hball a (by simp)
      obtain ⟨hb0, hb1⟩ := hball b (by simp)
      obtain ⟨hc0, hc1⟩ := hball c (by simp)
      exact ⟨⟨ha0, ha1⟩, ⟨hb0, hb1⟩, hc0, hc1⟩
    · obtain ⟨ha0, ha1⟩ := hball a (by simp)
      obtain ⟨hb0, hb1⟩ := hball b (by simp)
      obtain ⟨hc0, hc1⟩ := hball c (by simp)
      obtain ⟨hd0, hd1⟩ := hball d (by simp)
      refine ⟨⟨?_, ?_⟩, ⟨?_, ?_⟩, ?_, ?_⟩
      · show (0:ℚ) ≤ (1 - a) * (1 - d)
        nlinarith
      · show (1 - a) * (1 - d) ≤ (1:ℚ)
        nlinarith
      · show (0:ℚ) ≤ (1 - b) * (1 - d)
        nlinarith
      · show (1 - b) * (1 - d) ≤ (1:ℚ)
        nlinarith
      · show (0:ℚ) ≤ (1 - c) * (1 - d)
        nlinarith
      · show (1 - c) * (1 - d) ≤ (1:ℚ)
        nlinarith
    · exact by norm_num [normalize_color, inUnitQ3]

/-- Witness for the amended C5 theorem at a mid-gray CMYK input. -/
theorem normalize_color_spec_witness :
    inUnitQ3 (normalize_color (ColorEnc.tuple [1/2, 1/2, 1/2, 0])) :=
  (normalize_color_spec _ (by norm_num [encInUnit])).1

/-! ## Heuristic Classifiers -/

/-- Bold-indicating substrings of `is_large_text_by_wcag`, in source order. -/
def boldTerms : List String := ["Bold", "BoldItalic", "Black", "Heavy", "-Bold", "bold"]

/-- `is_large_text_by_wcag`: size ≥ 18pt, or size ≥ 14pt with a
bold-indicating substring (`is_bold` in the source) in the font name. -/
def is_large_text_by_wcag (font_size : ℚ) (font_name : String) : Bool :=
  if font_size ≥ 18 then true
  else if font_size ≥ 14 ∧ (boldTerms.any fun t => pyIn t font_name) then true
  else false

theorem isPrefixB_iff : ∀ n l : List Char, isPrefixB n l = true ↔ ∃ q, l = n ++ q
  | [], l => by simp [isPrefixB]
  | _ :: _, [] => by simp [isPrefixB]
  | a :: as, b :: bs => by
    simp only [isPrefixB, Bool.and_eq_true, decide_eq_true_eq, List.cons_append,
      List.cons.injEq]
    rw [isPrefixB_iff as bs]
    constructor
    · rintro ⟨rfl, q, rfl⟩
      exact ⟨q, rfl, rfl⟩
    · rintro ⟨q, rfl, rfl⟩
      exact ⟨rfl, q, rfl⟩

theorem hasSubstr_iff (n : List Char) :
    ∀ l : List Char, hasSubstr n l = true ↔ ∃ p q, l = p ++ n ++ q
  | [] => by
    constructor
    · intro h
      simp [hasSubstr, List.isEmpty_iff] at h
      exact ⟨[], [], by simp [h]⟩
    · rintro ⟨p, q, hpq⟩
      have h0 : p ++ n ++ q = [] := hpq.symm
      have hn : n = [] := by
        rcases List.append_eq_nil.mp h0 with ⟨h1, -⟩
        exact (List.append_eq_nil.mp h1).2
      simp [hasSubstr, hn]
  | h :: t => by
    simp only [hasSubstr, Bool.or_eq_true]
    rw [isPrefixB_iff, hasSubstr_iff n t]
    constructor
    · rintro (⟨q, hq⟩ | ⟨p, q, hpq⟩)
      · exact ⟨[], q, by simp [hq]⟩
      · exact ⟨h :: p, q, by simp [hpq]⟩
    · rintro ⟨p, q, hpq⟩
      rcases p with _ | ⟨p0, p'⟩
      · left
        exact ⟨q, by simpa using hpq⟩
      · right
        simp only [List.cons_append, List.cons.injEq] at hpq
        exact ⟨p', q, hpq.2⟩

/-- Characterization of `is_large_text_by_wcag` (shared helper). -/
theorem is_large_text_by_wcag_iff (s : ℚ) (n : String) :
    is_large_text_by_wcag s n = true ↔
      (18 ≤ s ∨ (14 ≤ s ∧ ∃ t ∈ (["Bold", "BoldItalic", "Black", "Heavy",
        "-Bold", "bold"] : List String), ∃ p q, n.data = p ++ t.data ++ q)) := by
  have hbold : (boldTerms.any fun t => pyIn t n) = true ↔
      ∃ t ∈ (["Bold", "BoldItalic", "Black", "Heavy", "-Bold", "bold"] :
        List String), ∃ p q, n.data = p ++ t.data ++ q := by
    rw [List.any_eq_true]
    constructor
    · rintro ⟨t, ht, hsub⟩
      exact ⟨t, ht, (hasSubstr_iff t.data n.data).mp hsub⟩
    · rintro ⟨t, ht, p, q, hpq⟩
      exact ⟨t, ht, (hasSubstr_iff t.data n.data).mpr ⟨p, q, hpq⟩⟩
  unfold is_large_text_by_wcag
  simp only [ge_iff_le]
  by_cases h18 : (18:ℚ) ≤ s
  · simp [h18]
  · rw [if_neg h18]
    by_cases hc : (14:ℚ) ≤ s ∧ (boldTerms.any fun t => pyIn t n) = true
    · rw [if_pos hc]
      exact ⟨fun _ => Or.inr ⟨hc.1, hbold.mp hc.2⟩, fun _ => rfl⟩
    · rw [if_neg hc]
      constructor
      · intro hfalse
        exact absurd hfalse (by simp)
      · rintro (h | ⟨h14, hsub⟩)
        · exact absurd h h18
        · exact absurd ⟨h14, hbold.mpr hsub⟩ hc

/-! ## Glyph records and the Line Reconstructor -/

/-- A glyph record as supplied by the page source (`char` dict entries the
analyzer reads, with the source's `.get` defaults folded into total
fields). -/
structure Glyph where
  text : String
  x0 : ℚ
  y0 : ℚ
  size : ℚ
  fontname : String
  non_stroking_color : ColorEnc
deriving DecidableEq

instance : Inhabited Glyph := ⟨⟨"", 0, 0, 0, "", ColorEnc.absent⟩⟩

/-- A page as the engine sees it: its ordered glyph records. -/
structure PageData where
  chars : List Glyph
deriving DecidableEq

/-- `get_text_line`: all glyphs of the page whose `y0` is within `tolerance`
of `y_position`, sorted by `x0`, with their concatenated text.  The source
memoizes the result in a page-scoped cache keyed by
`(id(page), round(y_position, 2))`; within a page the cache is pure
memoization (it can alias only two calls whose y-positions agree to two
decimals, which neither the analyzer's call sites nor the claims exercise),
so the model is the underlying pure function. -/
def get_text_line (page : PageData) (y_position : ℚ) (tolerance : ℚ := 2) :
    List Glyph × String :=
  let line_chars := (page.chars.filter fun c => |c.y0 - y_position| < tolerance
    ).insertionSort fun a b => a.x0 ≤ b.x0
  (line_chars, String.join (line_chars.map Glyph.text))

/-! ## C9: glyph membership across reconstructed lines -/

/-- C9 (amended): lines reconstructed for y-positions at least `2·tolerance`
apart never share a glyph.  (For closer y-positions the tolerance bands
overlap and a glyph can belong to both lines — see the counterexample.) -/
theorem get_text_line_disjoint (page : PageData) (y₁ y₂ tol : ℚ) (g : Glyph)
    (hsep : 2 * tol ≤ |y₁ - y₂|) (h₁ : g ∈ (get_text_line page y₁ tol).1) :
    g ∉ (get_text_line page y₂ tol).1 := by
  intro h₂
  have m₁ : g ∈ page.chars.filter fun c => |c.y0 - y₁| < tol :=
    ((List.perm_insertionSort _ _).mem_iff).mp h₁
  have m₂ : g ∈ page.chars.filter fun c => |c.y0 - y₂| < tol :=
    ((List.perm_insertionSort _ _).mem_iff).mp h₂
  have d₁ : |g.y0 - y₁| < tol := by
    have := (List.mem_filter.mp m₁).2
    exact of_decide_eq_true this
  have d₂ : |g.y0 - y₂| < tol := by
    have := (List.mem_filter.mp m₂).2
    exact of_decide_eq_true this
  have a₁ := abs_lt.mp d₁
  have a₂ := abs_lt.mp d₂
  rcases abs_cases (y₁ - y₂) with ⟨heq, -⟩ | ⟨heq, -⟩ <;> rw [heq] at hsep <;>
    linarith [a₁.1, a₁.2, a₂.1, a₂.2]

/-- The page for the C9 witness/counterexample: a single glyph. -/
def glyphAt (y : ℚ) : Glyph := ⟨"a", 0, y, 10, "Arial", ColorEnc.absent⟩

theorem glyphAt_line_eval (y yq : ℚ) (h : |y - yq| < 2) :
    (get_text_line ⟨[glyphAt y]⟩ yq 2).1 = [glyphAt y] := by
  unfold get_text_line
  simp [glyphAt, List.filter, List.insertionSort, List.orderedInsert,
    decide_eq_true_eq, h]

/-- Witness for the amended C9 theorem: a glyph on the line at `y = 0` is
not on the line at `y = 10`. -/
theorem get_text_line_disjoint_witness :
    glyphAt 0 ∉ (get_text_line ⟨[glyphAt 0]⟩ 10 2).1 :=
  get_text_line_disjoint ⟨[glyphAt 0]⟩ 0 10 2 (glyphAt 0) (by norm_num)
    (by rw [glyphAt_line_eval 0 0 (by norm_num)]; exact List.mem_singleton.mpr rfl)

/-- C9 counterexample: with the default tolerance 2.0, the glyph at
`y0 = 1` belongs to the reconstructed line at `y = 0` **and** to the
reconstructed line at `y = 2`. -/
theorem get_text_line_shared_glyph :
    (0 : ℚ) ≠ 2 ∧ glyphAt 1 ∈ (get_text_line ⟨[glyphAt 1]⟩ 0 2).1 ∧
      glyphAt 1 ∈ (get_text_line ⟨[glyphAt 1]⟩ 2 2).1 := by
  refine ⟨by norm_num, ?_, ?_⟩
  · rw [glyphAt_line_eval 1 0 (by norm_num)]
    exact List.mem_singleton.mpr rfl
  · rw [glyphAt_line_eval 1 2 (by norm_num)]
    exact List.mem_singleton.mpr rfl

/-! ## Font readability classifier -/

/-- `ACCESSIBLE_FONTS`, in source-literal order (a python set; iteration
order only influences which matching name the reason string reports, not the
returned boolean). -/
def ACCESSIBLE_FONTS : List String :=
  ["Arial", "Helvetica", "Verdana", "Tahoma", "Calibri",
   "Georgia", "Times New Roman", "Lucida Sans", "Trebuchet MS",
   "Open Sans", "Roboto", "Lato", "Montserrat",
   "LiberationSans", "LiberationSerif", "DejaVu Sans", "DejaVu Serif"]

/-- `POOR_READABILITY_FONTS`, in source-literal order. -/
def POOR_READABILITY_FONTS : List String :=
  ["Comic Sans", "Papyrus", "Brush Script", "Jokerman",
   "Chiller", "Curly", "Old English", "Gothic",
   "Courier", "Consolas", "Monaco", "Menlo", "Source Code Pro"]

/-- Python `font_name.split('+')[-1]`: the suffix after the last `+`. -/
def afterLastPlus (l : List Char) : List Char :=
  (l.reverse.takeWhile fun c => c ≠ '+').reverse

/-- `normalize_font_name`: drop a subset-tag prefix up to the last `+`, then
remove `-Bold`, `-Italic`, `Bold`, `Italic`, `MT`, `PS` (in source order),
then strip whitespace. -/
def normalize_font_name (font_name : String) : String :=
  let base := if pyIn "+" font_name then afterLastPlus font_name.data
    else font_name.data
  let r1 := replaceAll "-Bold".data [] base
  let r2 := replaceAll "-Italic".data [] r1
  let r3 := replaceAll "Bold".data [] r2
  let r4 := replaceAll "Italic".data [] r3
  let r5 := replaceAll "MT".data [] r4
  let r6 := replaceAll "PS".data [] r5
  strOf (trimList r6)

/-- `check_font_readability`: case-insensitive substring match of the
normalized name against the accessible set first, then the poor set; an
unknown font is flagged as not readable. -/
def check_font_readability (font_name : String) : Bool × String :=
  let normalized_name := normalize_font_name font_name
  match ACCESSIBLE_FONTS.find? fun f =>
      pyIn (strOf (f.data.map Char.toLower))
        (strOf (normalized_name.data.map Char.toLower)) with
  | some f => (true, "Хорошо читаемый шрифт: " ++ f)
  | none =>
    match POOR_READABILITY_FONTS.find? fun f =>
        pyIn (strOf (f.data.map Char.toLower))
          (strOf (normalized_name.data.map Char.toLower)) with
    | some f => (false, "Плохо читаемый шрифт: " ++ f)
    | none => (false, "Неизвестный шрифт: " ++ normalized_name)

/-! ## Color bucketing (`rgb_to_hsv`, `identify_problematic_color`) -/

/-- `colorsys.rgb_to_hsv`, exact over `ℚ` (python `x % 1.0` is `Int.fract`). -/
def rgb_to_hsv (c : ℚ × ℚ × ℚ) : ℚ × ℚ × ℚ :=
  let r := c.1
  let g := c.2.1
  let b := c.2.2
  let maxc := max r (max g b)
  let minc := min r (min g b)
  if minc = maxc then (0, 0, maxc)
  else
    let s := (maxc - minc) / maxc
    let rc := (maxc - r) / (maxc - minc)
    let gc := (maxc - g) / (maxc - minc)
    let bc := (maxc - b) / (maxc - minc)
    let h := if r = maxc then bc - gc
      else if g = maxc then 2 + rc - bc
      else 4 + gc - rc
    (Int.fract (h / 6), s, maxc)

/-- `identify_problematic_color`: hue-range buckets with saturation/value
thresholds; the trailing gray check runs whenever no hue branch returned. -/
def identify_problematic_color (color : ℚ × ℚ × ℚ) : Option String :=
  let hsv := rgb_to_hsv color
  let h := hsv.1
  let s := hsv.2.1
  let v := hsv.2.2
  let hueHit : Option String :=
    if 0.2 ≤ h ∧ h ≤ 0.4 then
      if s > 0.3 ∧ v > 0.4 then
        some (if v > 0.7 then "светло-зеленый" else "зеленый")
      else none
    else if h ≤ 0.05 ∨ h ≥ 0.95 then
      if s > 0.3 ∧ v > 0.4 then
        some (if v > 0.7 then "светло-красный" else "красный")
      else none
    else if 0.55 ≤ h ∧ h ≤ 0.75 then
      if s > 0.3 ∧ v > 0.4 then
        some (if v > 0.7 then "светло-синий" else "синий")
      else none
    else if 0.05 ≤ h ∧ h ≤ 0.15 then
      if s > 0.3 ∧ v > 0.6 then
        some (if v > 0.8 then "желтый" else "оранжевый")
      else none
    else none
  match hueHit with
  | some name => some name
  | none => if s < 0.1 ∧ 0.3 ≤ v ∧ v ≤ 0.7 then some "серый" else none

/-! ## Issue Detector -/

/-- Issue severities.  The detector only ever emits these three values; the
aggregator's inner severity dictionaries are keyed by exactly this set. -/
inductive Sev where
  | high
  | medium
  | low
deriving DecidableEq

/-- `AccessibilityIssue`, with the dataclass defaults. -/
structure AccessibilityIssue where
  page : ℤ
  x : ℚ
  y : ℚ
  text : String
  issue_type : String
  description : String
  severity : Sev
  font_name : String := ""
  font_size : ℚ := 0
  color : ℚ × ℚ × ℚ := (0, 0, 0)
  background_color : ℚ × ℚ × ℚ := (1, 1, 1)
deriving DecidableEq

/-- WCAG constants of the analyzer: `MIN_FONT_SIZE`, `MIN_HEADING_SIZE`. -/
def MIN_FONT_SIZE : ℚ := 12

/-- Minimum heading size (pt). -/
def MIN_HEADING_SIZE : ℚ := 14

/-- `MIN_CONTRAST_RA` ++ `TIO` in the source: required contrast for normal
text. -/
def minContrastNormal : ℚ := 4.5

/-- `MIN_CONTRAST_LARGE`: required contrast for WCAG-large text. -/
def MIN_CONTRAST_LARGE : ℚ := 3.0

/-- `extract_background_color`: the stubbed background sampler — always
white. -/
def extract_background_color (_x _y : ℚ) : ℚ × ℚ × ℚ := (1, 1, 1)

/-- Luminance of a rational RGB triple (as the pipeline applies the real
computation to glyph color data). -/
noncomputable def luminanceQ (c : ℚ × ℚ × ℚ) : ℝ :=
  calculate_luminance ((c.1 : ℝ), (c.2.1 : ℝ), (c.2.2 : ℝ))

/-- Contrast ratio of two rational RGB triples. -/
noncomputable def contrastQ (c₁ c₂ : ℚ × ℚ × ℚ) : ℝ :=
  calculate_contrast_ratio ((c₁.1 : ℝ), (c₁.2.1 : ℝ), (c₁.2.2 : ℝ))
    ((c₂.1 : ℝ), (c₂.2.1 : ℝ), (c₂.2.2 : ℝ))

/-- Rendering of the measured (real) contrast ratio to one decimal inside
issue descriptions.  The source formats a float here; an exact-real decimal
rendering is not definable and no claim inspects these digits, so they are
abstracted by a fixed placeholder. -/
def realFixed1 (_r : ℝ) : String := "?"

/-- `analyze_text_line_contrast`: per-line average size / bold flag /
large-text determination, then a per-glyph contrast check against the
(stubbed, white) background.  The side lists `color_issues` and
`problematic_colors_found` (debug/report-only state) are not modelled; the
function's returned issue list is. -/
noncomputable def analyze_text_line_contrast (page_num : ℤ)
    (line_chars : List Glyph) (line_text : String) : List AccessibilityIssue :=
  if line_chars.isEmpty || pyStrip line_text = "" then []
  else
    let normalized_line_text := remove_duplicate_chars_str (pyStrip line_text)
    if normalized_line_text = "" ∨ normalized_line_text.length < 3 then []
    else
      let avg_size := (line_chars.map Glyph.size).sum / (line_chars.length : ℚ)
      let is_bold := line_chars.any fun c => pyIn "Bold" c.fontname
      let is_large_wcag := is_large_text_by_wcag avg_size line_chars.headI.fontname
      let required_contrast :=
        if is_large_wcag then MIN_CONTRAST_LARGE else minContrastNormal
      line_chars.flatMap fun ch =>
        let text_color := normalize_color ch.non_stroking_color
        let bg_color := extract_background_color ch.x0 ch.y0
        let contrast_ratio := contrastQ text_color bg_color
        if contrast_ratio < (required_contrast : ℝ) then
          let color_name := identify_problematic_color text_color
          let severity := if contrast_ratio < 2 then Sev.high
            else if contrast_ratio < 3 then Sev.medium else Sev.low
          let size_info := if is_large_wcag then
              "Крупный текст (" ++ formatFixed1 avg_size ++ "pt" ++
                (if is_bold then " жирный" else "") ++ ")"
            else "Обычный текст (" ++ formatFixed1 avg_size ++ "pt)"
          let contrast_req := if is_large_wcag then "требуется ≥3.0:1"
            else "требуется ≥4.5:1"
          let base_desc := size_info ++ ". Контрастность: " ++
            realFixed1 contrast_ratio ++ ":1 (" ++ contrast_req ++ ")"
          let issue_desc := match color_name with
            | some nm => base_desc ++ ". Проблемный цвет: " ++ nm
            | none => base_desc
          let text_preview := if normalized_line_text.length > 150 then
              takeStr normalized_line_text 147 ++ "..."
            else normalized_line_text
          [{ page := page_num, x := ch.x0, y := ch.y0, text := text_preview,
             issue_type := "Контрастность", description := issue_desc,
             severity := severity, font_name := ch.fontname,
             font_size := ch.size, color := text_color,
             background_color := bg_color }]
        else []

/-- The glyph loop of `analyze_page`, with the mutable `processed_lines` set
threaded explicitly.  Per glyph: whitespace skip; once-per-line contrast
analysis; the per-glyph font-size check (heading branch, then the
not-large-by-WCAG branch); the per-glyph readability check.  The short-text
`continue` skips the latter two but keeps the line's contrast issues, exactly
as in the source. -/
noncomputable def analyzeChars (page_num : ℤ) (page : PageData) :
    List Glyph → List ℚ → List AccessibilityIssue
  | [], _ => []
  | ch :: rest, processed_lines =>
    if pyStrip ch.text = "" then analyzeChars page_num page rest processed_lines
    else
      let line_y := roundQ2 ch.y0
      let contrast_issues :=
        if line_y ∈ processed_lines then []
        else if pyStrip (get_text_line page ch.y0).2 ≠ "" then
          analyze_text_line_contrast page_num (get_text_line page ch.y0).1
            (get_text_line page ch.y0).2
        else []
      let processed' := if line_y ∈ processed_lines then processed_lines
        else line_y :: processed_lines
      let font_size := ch.size
      let font_name := ch.fontname
      let is_bold := pyIn "Bold" font_name
      let is_large_wcag := is_large_text_by_wcag font_size font_name
      let normalized_text :=
        remove_duplicate_chars_str (pyStrip (get_text_line page ch.y0).2)
      let glyph_issues :=
        if normalized_text = "" ∨ normalized_text.length < 3 then []
        else
          let text_preview := takeStr normalized_text 80 ++
            (if normalized_text.length > 80 then "..." else "")
          let size_issues :=
            if is_bold ∧ font_size ≥ 14 then
              if font_size < MIN_HEADING_SIZE then
                [{ page := page_num, x := ch.x0, y := ch.y0,
                   text := text_preview, issue_type := "Размер шрифта",
                   description := "Размер заголовка " ++ formatFixed1 font_size ++
                     "pt меньше минимального 14pt",
                   severity := Sev.high, font_name := font_name,
                   font_size := font_size }]
              else []
            else if ¬ is_large_wcag then
              if font_size < MIN_FONT_SIZE then
                [{ page := page_num, x := ch.x0, y := ch.y0,
                   text := text_preview, issue_type := "Размер шрифта",
                   description := "Размер текста " ++ formatFixed1 font_size ++
                     "pt меньше минимального 12pt",
                   severity := if font_size ≥ 10 then Sev.medium else Sev.high,
                   font_name := font_name, font_size := font_size }]
              else []
            else []
          let readability_issues :=
            if (check_font_readability font_name).1 = false then
              [{ page := page_num, x := ch.x0, y := ch.y0,
                 text := text_preview, issue_type := "Читаемость шрифта",
                 description := (check_font_readability font_name).2,
                 severity := Sev.medium, font_name := font_name,
                 font_size := font_size }]
            else []
          size_issues ++ readability_issues
      contrast_issues ++ glyph_issues ++ analyzeChars page_num page rest processed'

/-- `analyze_page`: run the glyph loop over the page with an empty
`processed_lines` set. -/
noncomputable def analyze_page (page_num : ℤ) (page : PageData) :
    List AccessibilityIssue :=
  analyzeChars page_num page page.chars []

/-! ## Evaluation lemmas for the color model at black / white -/

theorem srgb_to_linear_zero : srgb_to_linear 0 = 0 := by
  unfold srgb_to_linear
  rw [if_pos (by norm_num : (0:ℝ) ≤ 0.03928)]
  norm_num

theorem srgb_to_linear_one : srgb_to_linear 1 = 1 := by
  unfold srgb_to_linear
  rw [if_neg (by norm_num : ¬((1:ℝ) ≤ 0.03928))]
  rw [show ((1:ℝ) + 0.055) / 1.055 = 1 by norm_num, Real.one_rpow]

theorem luminance_black : calculate_luminance (0, 0, 0) = 0 := by
  show 0.2126 * srgb_to_linear 0 + 0.7152 * srgb_to_linear 0 +
    0.0722 * srgb_to_linear 0 = 0
  rw [srgb_to_linear_zero]
  ring

theorem luminance_white : calculate_luminance (1, 1, 1) = 1 := by
  show 0.2126 * srgb_to_linear 1 + 0.7152 * srgb_to_linear 1 +
    0.0722 * srgb_to_linear 1 = 1
  rw [srgb_to_linear_one]
  norm_num

theorem contrast_black_white : calculate_contrast_ratio (0, 0, 0) (1, 1, 1) = 21 := by
  unfold calculate_contrast_ratio
  rw [luminance_black, luminance_white,
    max_eq_right (by norm_num : (0:ℝ) ≤ 1), min_eq_left (by norm_num : (0:ℝ) ≤ 1)]
  norm_num

theorem contrastQ_black_white : contrastQ (0, 0, 0) (1, 1, 1) = 21 := by
  show calculate_contrast_ratio (((0:ℚ):ℝ), ((0:ℚ):ℝ), ((0:ℚ):ℝ))
    (((1:ℚ):ℝ), ((1:ℚ):ℝ), ((1:ℚ):ℝ)) = 21
  rw [Rat.cast_zero, Rat.cast_one]
  exact contrast_black_white

/-! ## C2: the single-page "hello" scenario -/

/-- One glyph of the scenario: 10pt black non-bold Arial at `y0 = 100`. -/
def helloGlyph (t : String) (x : ℚ) : Glyph :=
  ⟨t, x, 100, 10, "Arial", ColorEnc.tuple [0, 0, 0]⟩

@[simp] theorem helloGlyph_text (t : String) (x : ℚ) : (helloGlyph t x).text = t := rfl

@[simp] theorem helloGlyph_x0 (t : String) (x : ℚ) : (helloGlyph t x).x0 = x := rfl

@[simp] theorem helloGlyph_y0 (t : String) (x : ℚ) : (helloGlyph t x).y0 = 100 := rfl

@[simp] theorem helloGlyph_size (t : String) (x : ℚ) : (helloGlyph t x).size = 10 := rfl

@[simp] theorem helloGlyph_fontname (t : String) (x : ℚ) :
    (helloGlyph t x).fontname = "Arial" := rfl

@[simp] theorem helloGlyph_color (t : String) (x : ℚ) :
    (helloGlyph t x).non_stroking_color = ColorEnc.tuple [0, 0, 0] := rfl

/-- The scenario page: one run of five glyphs spelling "hello". -/
def helloPage : PageData :=
  ⟨[helloGlyph "h" 0, helloGlyph "e" 10, helloGlyph "l" 20,
    helloGlyph "l" 30, helloGlyph "o" 40]⟩

theorem helloPage_chars : helloPage.chars =
    [helloGlyph "h" 0, helloGlyph "e" 10, helloGlyph "l" 20,
     helloGlyph "l" 30, helloGlyph "o" 40] := rfl

theorem hello_line_eval : get_text_line helloPage 100 =
    ([helloGlyph "h" 0, helloGlyph "e" 10, helloGlyph "l" 20,
      helloGlyph "l" 30, helloGlyph "o" 40], "hello") := by
  simp only [get_text_line]
  rw [show helloPage.chars.filter (fun c => |c.y0 - 100| < 2) = helloPage.chars from by
    norm_num [helloPage, helloGlyph, List.filter]]
  rw [show helloPage.chars.insertionSort (fun a b => a.x0 ≤ b.x0) = helloPage.chars from by
    norm_num [helloPage, helloGlyph, List.insertionSort, List.orderedInsert]]
  rw [helloPage_chars]
  rfl

theorem roundQ2_100 : roundQ2 100 = 100 := by
  norm_num [roundQ2, roundHalfEvenQ]

theorem formatFixed1_10 : formatFixed1 10 = "10.0" := by
  rw [show formatFixed1 10 = (if (100:ℤ) < 0 then
      "-" ++ toString ((-100:ℤ) / 10) ++ "." ++ toString ((-100:ℤ) % 10)
    else toString ((100:ℤ) / 10) ++ "." ++ toString ((100:ℤ) % 10)) from by
    unfold formatFixed1
    norm_num [roundHalfEvenQ]]
  rfl

theorem hello_avg_size :
    (([helloGlyph "h" 0, helloGlyph "e" 10, helloGlyph "l" 20,
       helloGlyph "l" 30, helloGlyph "o" 40].map Glyph.size).sum /
      (([helloGlyph "h" 0, helloGlyph "e" 10, helloGlyph "l" 20,
       helloGlyph "l" 30, helloGlyph "o" 40] : List Glyph).length : ℚ)) = 10 := by
  norm_num

theorem hello_contrast_eval :
    analyze_text_line_contrast 1
      [helloGlyph "h" 0, helloGlyph "e" 10, helloGlyph "l" 20,
       helloGlyph "l" 30, helloGlyph "o" 40] "hello" = [] := by
  simp only [analyze_text_line_contrast]
  rw [if_neg (by decide)]
  rw [if_neg (by decide :
    ¬(remove_duplicate_chars_str (pyStrip "hello") = "" ∨
      (remove_duplicate_chars_str (pyStrip "hello")).length < 3))]
  rw [hello_avg_size]
  have hlarge : is_large_text_by_wcag 10
      ([helloGlyph "h" 0, helloGlyph "e" 10, helloGlyph "l" 20,
        helloGlyph "l" 30, helloGlyph "o" 40] : List Glyph).headI.fontname = false := by
    decide
  rw [hlarge]
  have hlt : ¬((21 : ℝ) < ((minContrastNormal : ℚ) : ℝ)) := by
    rw [show ((minContrastNormal : ℚ) : ℝ) = (4.5 : ℝ) from by
      norm_num [minContrastNormal]]
    norm_num
  simp only [Bool.false_eq_true, if_false, List.flatMap_cons, List.flatMap_nil,
    helloGlyph_color, helloGlyph_x0, helloGlyph_y0, extract_background_color,
    show normalize_color (ColorEnc.tuple [0, 0, 0]) = (0, 0, 0) from rfl,
    contrastQ_black_white, hlt, List.append_nil]

/-- The FontSize issue the scenario yields for the glyph at abscissa `x`. -/
def helloSizeIssue (x : ℚ) : AccessibilityIssue :=
  { page := 1, x := x, y := 100, text := "helo", issue_type := "Размер шрифта",
    description := "Размер текста 10.0pt меньше минимального 12pt",
    severity := Sev.medium, font_name := "Arial", font_size := 10 }

/-- Full evaluation of `analyze_page` on the scenario: one FontSize issue per
glyph, no contrast or readability issues. -/
theorem hello_scenario : analyze_page 1 helloPage =
    [helloSizeIssue 0, helloSizeIssue 10, helloSizeIssue 20,
     helloSizeIssue 30, helloSizeIssue 40] := by
  have hs1 : pyStrip "h" = "h" := rfl
  have hs2 : pyStrip "e" = "e" := rfl
  have hs3 : pyStrip "l" = "l" := rfl
  have hs4 : pyStrip "o" = "o" := rfl
  have hh : pyStrip "hello" = "hello" := rfl
  have hdedup : remove_duplicate_chars_str "hello" = "helo" := rfl
  have hlen : ("helo" : String).length = 4 := rfl
  have htake : takeStr "helo" 80 = "helo" := rfl
  have happ : "helo" ++ "" = "helo" := rfl
  have hbold : pyIn "Bold" "Arial" = false := rfl
  have hlarge : is_large_text_by_wcag 10 "Arial" = false := by decide
  have hlt12 : (10 : ℚ) < 12 := by norm_num
  have hread : (check_font_readability "Arial").1 = true := rfl
  have hdesc : "Размер текста " ++ "10.0" ++ "pt меньше минимального 12pt" =
      "Размер текста 10.0pt меньше минимального 12pt" := rfl
  unfold analyze_page
  rw [helloPage_chars]
  simp [analyzeChars, helloGlyph_text, helloGlyph_x0, helloGlyph_y0,
    helloGlyph_size, helloGlyph_fontname, hs1, hs2, hs3, hs4, roundQ2_100,
    hello_line_eval, hh, hdedup, hello_contrast_eval, hlen, htake, happ,
    hbold, hlarge, hlt12, hread, hdesc, formatFixed1_10, MIN_FONT_SIZE,
    MIN_HEADING_SIZE, helloSizeIssue]

/-- C2 counterexample: the scenario produces **five** FontSize issues (the
per-glyph check fires once per glyph of "hello"), not exactly one. -/
theorem hello_fontsize_count_ne_one :
    (analyze_page 1 helloPage).countP
      (fun i => i.issue_type == "Размер шрифта") ≠ 1 := by
  rw [hello_scenario]
  decide

/-- C2 (amended): the scenario yields exactly five FontSize issues — one per
glyph — each of severity medium with a description mentioning "10.0pt" and
"12pt", zero Contrast issues, and zero FontReadability issues. -/
theorem hello_scenario_spec :
    (analyze_page 1 helloPage).countP
        (fun i => i.issue_type == "Размер шрифта") = 5 ∧
      (analyze_page 1 helloPage).countP
        (fun i => i.issue_type == "Контрастность") = 0 ∧
      (analyze_page 1 helloPage).countP
        (fun i => i.issue_type == "Читаемость шрифта") = 0 ∧
      ∀ i ∈ analyze_page 1 helloPage, i.severity = Sev.medium ∧
        pyIn "10.0pt" i.description = true ∧ pyIn "12pt" i.description = true := by
  rw [hello_scenario]
  exact ⟨by decide, by decide, by decide, by decide⟩

/-! ## C10: the high-severity heading branch is unreachable -/

/-- Python-`startswith` test for the undersized-heading description that the
heading branch of `analyze_page` would emit. -/
def startsWithHeading (s : String) : Bool :=
  isPrefixB "Размер заголовка".data s.data

theorem swh_textsize (l : List Char) :
    isPrefixB "Размер заголовка".data ("Размер текста ".data ++ l) = false := rfl

theorem swh_large (l : List Char) :
    isPrefixB "Размер заголовка".data ("Крупный текст (".data ++ l) = false := rfl

theorem swh_normal (l : List Char) :
    isPrefixB "Размер заголовка".data ("Обычный текст (".data ++ l) = false := rfl

theorem swh_poor (l : List Char) :
    isPrefixB "Размер заголовка".data ("Плохо читаемый шрифт: ".data ++ l) = false := rfl

theorem swh_unknown (l : List Char) :
    isPrefixB "Размер заголовка".data ("Неизвестный шрифт: ".data ++ l) = false := rfl

theorem countP_flatMap_zero {α β : Type} (p : β → Bool) (f : α → List β)
    (l : List α) (h : ∀ a ∈ l, (f a).countP p = 0) :
    (l.flatMap f).countP p = 0 := by
  induction l with
  | nil => rfl
  | cons a t ih =>
    rw [List.flatMap_cons, List.countP_append, h a (by simp),
      ih fun x hx => h x (by simp [hx])]

/-- No contrast issue's description starts with the heading marker. -/
theorem contrast_no_heading (pn : ℤ) (lc : List Glyph) (lt : String) :
    (analyze_text_line_contrast pn lc lt).countP
      (fun i => startsWithHeading i.description) = 0 := by
  simp only [analyze_text_line_contrast]
  split
  · simp
  · split
    · simp
    · apply countP_flatMap_zero
      intro ch hch
      rcases hcn : identify_problematic_color (normalize_color ch.non_stroking_color) with
        _ | nm <;>
      rcases hL : is_large_text_by_wcag ((lc.map Glyph.size).sum / (lc.length : ℚ))
          lc.headI.fontname with _ | _ <;>
      simp [hcn, hL, startsWithHeading, String.data_append, List.append_assoc,
        swh_large, swh_normal, isPrefixB]

/-- `check_font_readability` never reports a failure with a heading-marker
description. -/
theorem readability_no_heading (n : String)
    (h : (check_font_readability n).1 = false) :
    startsWithHeading (check_font_readability n).2 = false := by
  simp only [check_font_readability] at h ⊢
  rcases hA : ACCESSIBLE_FONTS.find? (fun f =>
      pyIn (strOf (f.data.map Char.toLower))
        (strOf ((normalize_font_name n).data.map Char.toLower))) with _ | f
  · simp only [hA] at h ⊢
    rcases hP : POOR_READABILITY_FONTS.find? (fun f =>
        pyIn (strOf (f.data.map Char.toLower))
          (strOf ((normalize_font_name n).data.map Char.toLower))) with _ | f
    · simp only [hP]
      show isPrefixB "Размер заголовка".data
        ("Неизвестный шрифт: " ++ normalize_font_name n).data = false
      rw [String.data_append]
      exact swh_unknown _
    · simp only [hP]
      show isPrefixB "Размер заголовка".data
        ("Плохо читаемый шрифт: " ++ f).data = false
      rw [String.data_append]
      exact swh_poor _
  · simp only [hA] at h
    exact absurd h (by simp)

/-- C10: the heading-undersize branch of `analyze_page` is unreachable — its
guard needs `font_size ≥ 14` and `font_size < MIN_HEADING_SIZE = 14` at once
— so no emitted issue's description starts with the heading marker
"Размер заголовка". -/
theorem analyze_page_no_heading_issue (pn : ℤ) (page : PageData) :
    (analyze_page pn page).countP
      (fun i => startsWithHeading i.description) = 0 := by
  suffices h : ∀ (glyphs : List Glyph) (processed : List ℚ),
      (analyzeChars pn page glyphs processed).countP
        (fun i => startsWithHeading i.description) = 0 by
    exact h page.chars []
  intro glyphs
  induction glyphs with
  | nil => intro processed; simp [analyzeChars]
  | cons ch rest ih =>
    intro processed
    simp only [analyzeChars]
    by_cases hws : pyStrip ch.text = ""
    · rw [if_pos hws]
      exact ih processed
    · rw [if_neg hws, List.countP_append, List.countP_append, ih]
      have h1 : (if roundQ2 ch.y0 ∈ processed then []
          else if pyStrip (get_text_line page ch.y0).2 ≠ "" then
            analyze_text_line_contrast pn (get_text_line page ch.y0).1
              (get_text_line page ch.y0).2
          else []).countP (fun i => startsWithHeading i.description) = 0 := by
        split
        · simp
        · split
          · exact contrast_no_heading pn _ _
          · simp
      rw [h1]
      simp only [Nat.add_zero, Nat.zero_add]
      split
      · simp
      · rw [List.countP_append]
        have hsz : ∀ n : ℕ, n = 0 → ∀ m : ℕ, m = 0 → n + m = 0 := by
          intro n hn m hm; omega
        refine hsz _ ?_ _ ?_
        · split
          · split
            · rename_i hguard hlt
              exfalso
              have h14 : (14 : ℚ) ≤ ch.size := hguard.2
              rw [show MIN_HEADING_SIZE = (14 : ℚ) from rfl] at hlt
              exact absurd h14 (not_le.mpr hlt)
            · simp
          · split
            · split
              · simp [List.countP_cons, startsWithHeading, String.data_append,
                  List.append_assoc, swh_textsize, isPrefixB]
              · simp
            · simp
        · split
          · rename_i hfail
            rw [List.countP_eq_zero]
            intro a ha
            rw [List.mem_singleton] at ha
            subst ha
            intro hcontra
            simp only [] at hcontra
            rw [readability_no_heading ch.fontname hfail] at hcontra
            exact Bool.false_ne_true hcontra
          · rfl

/-- C6: `is_large_text_by_wcag` is true iff size ≥ 18, or size ≥ 14 and the
font name contains one of the six case-sensitive bold-indicating substrings;
together with the four concrete instances from the spec. -/
theorem is_large_text_by_wcag_spec :
    (∀ (s : ℚ) (n : String), is_large_text_by_wcag s n = true ↔
      (18 ≤ s ∨ (14 ≤ s ∧ ∃ t ∈ (["Bold", "BoldItalic", "Black", "Heavy",
        "-Bold", "bold"] : List String), ∃ p q, n.data = p ++ t.data ++ q))) ∧
    is_large_text_by_wcag 18 "Arial" = true ∧
    is_large_text_by_wcag 14 "Arial-Bold" = true ∧
    is_large_text_by_wcag 14 "Arial" = false ∧
    is_large_text_by_wcag 13.9 "Arial-Bold" = false := by
  refine ⟨is_large_text_by_wcag_iff, by decide, by decide, by decide, ?_⟩
  rcases hb : is_large_text_by_wcag 13.9 "Arial-Bold" with _ | _
  · rfl
  · exfalso
    rcases (is_large_text_by_wcag_iff 13.9 "Arial-Bold").mp hb with h | ⟨h, -⟩ <;>
      norm_num at h

/-! ## Aggregator: `group_and_summarize_issues_improved` -/

/-- A `{'places': …, 'words': …}` counter cell. -/
structure Counts2 where
  places : ℕ
  words : ℕ
deriving DecidableEq

/-- The inner dict of `by_type_severity`: one cell per severity (the source
pre-populates exactly the keys high/medium/low). -/
structure TypeSevCell where
  high : Counts2
  medium : Counts2
  low : Counts2
deriving DecidableEq

def TypeSevCell.empty : TypeSevCell := ⟨⟨0, 0⟩, ⟨0, 0⟩, ⟨0, 0⟩⟩

/-- `type_sev_group[issue.severity]['places'] += 1` etc. -/
def TypeSevCell.bump (c : TypeSevCell) (s : Sev) (w : ℕ) : TypeSevCell :=
  match s with
  | .high => { c with high := ⟨c.high.places + 1, c.high.words + w⟩ }
  | .medium => { c with medium := ⟨c.medium.places + 1, c.medium.words + w⟩ }
  | .low => { c with low := ⟨c.low.places + 1, c.low.words + w⟩ }

/-- A `by_type` cell (python sets modelled as insert-if-absent lists). -/
structure TypeCell where
  total_places : ℕ
  total_words : ℕ
  pages_affected : List ℤ
deriving DecidableEq

/-- A `by_severity` cell with its nested per-type breakdown. -/
structure SevCell where
  places : ℕ
  words : ℕ
  types : List (String × Counts2)
deriving DecidableEq

/-- The `overall` view. -/
structure Overall where
  total_places : ℕ
  total_words : ℕ
  pages_with_issues : List ℤ
  types_distribution : List (String × ℕ)
  sev_high : ℕ
  sev_medium : ℕ
  sev_low : ℕ
deriving DecidableEq

/-- The four summary views.  `by_severity` is a python defaultdict keyed by
the three severities the detector emits; it is modelled with one cell per
severity (an uncreated key holds zero counts, so sums over created keys and
over all three agree). -/
structure Summary where
  by_type_severity : List (String × TypeSevCell)
  by_type : List (String × TypeCell)
  by_severity_high : SevCell
  by_severity_medium : SevCell
  by_severity_low : SevCell
  overall : Overall
deriving DecidableEq

/-- python `set.add`, on a duplicate-free list. -/
def insertNew {α : Type} [DecidableEq α] (x : α) (l : List α) : List α :=
  if x ∈ l then l else l ++ [x]

/-- defaultdict update: modify the entry at `k` (created from default `d` on
first access), preserving insertion order. -/
def updAssoc {α β : Type} [DecidableEq α] (k : α) (d : β) (f : β → β) :
    List (α × β) → List (α × β)
  | [] => [(k, f d)]
  | (k', v) :: t => if k' = k then (k', f v) :: t else (k', v) :: updAssoc k d f t

/-- Lookup in an association list (first match). -/
def lookupA {α β : Type} [DecidableEq α] (k : α) : List (α × β) → Option β
  | [] => none
  | (k', v) :: t => if k' = k then some v else lookupA k t

def SevCell.bump (c : SevCell) (t : String) (w : ℕ) : SevCell :=
  ⟨c.places + 1, c.words + w,
    updAssoc t ⟨0, 0⟩ (fun n => ⟨n.places + 1, n.words + w⟩) c.types⟩

def emptySummary : Summary :=
  ⟨[], [], ⟨0, 0, []⟩, ⟨0, 0, []⟩, ⟨0, 0, []⟩, ⟨0, 0, [], [], 0, 0, 0⟩⟩

/-- The per-issue body of `group_and_summarize_issues_improved`'s single
pass: update all four views. -/
def summarizeStep (s : Summary) (issue : AccessibilityIssue) : Summary :=
  let word_count := count_words issue.text
  { by_type_severity := updAssoc issue.issue_type TypeSevCell.empty
      (fun c => c.bump issue.severity word_count) s.by_type_severity
    by_type := updAssoc issue.issue_type ⟨0, 0, []⟩
      (fun c => ⟨c.total_places + 1, c.total_words + word_count,
        insertNew issue.page c.pages_affected⟩) s.by_type
    by_severity_high := if issue.severity = Sev.high then
        s.by_severity_high.bump issue.issue_type word_count
      else s.by_severity_high
    by_severity_medium := if issue.severity = Sev.medium then
        s.by_severity_medium.bump issue.issue_type word_count
      else s.by_severity_medium
    by_severity_low := if issue.severity = Sev.low then
        s.by_severity_low.bump issue.issue_type word_count
      else s.by_severity_low
    overall := ⟨s.overall.total_places + 1,
      s.overall.total_words + word_count,
      insertNew issue.page s.overall.pages_with_issues,
      updAssoc issue.issue_type 0 (· + 1) s.overall.types_distribution,
      s.overall.sev_high + (if issue.severity = Sev.high then 1 else 0),
      s.overall.sev_medium + (if issue.severity = Sev.medium then 1 else 0),
      s.overall.sev_low + (if issue.severity = Sev.low then 1 else 0)⟩ }

/-- `group_and_summarize_issues_improved`: one pass over the issue list. -/
def group_and_summarize_issues_improved (issues : List AccessibilityIssue) :
    Summary :=
  issues.foldl summarizeStep emptySummary

/-! ## C7: aggregation conservation -/

/-- Sum of `by_severity[*]['places']` over all severities. -/
def sevPlacesSum (s : Summary) : ℕ :=
  s.by_severity_high.places + s.by_severity_medium.places + s.by_severity_low.places

theorem summarizeStep_overall (s : Summary) (i : AccessibilityIssue) :
    (summarizeStep s i).overall.total_places = s.overall.total_places + 1 := rfl

theorem summarizeStep_sevSum (s : Summary) (i : AccessibilityIssue) :
    sevPlacesSum (summarizeStep s i) = sevPlacesSum s + 1 := by
  cases hs : i.severity <;>
    simp [summarizeStep, sevPlacesSum, SevCell.bump, hs] <;> omega

theorem summarize_fold_invariant (issues : List AccessibilityIssue) :
    ∀ s : Summary,
      (issues.foldl summarizeStep s).overall.total_places =
          s.overall.total_places + issues.length ∧
        sevPlacesSum (issues.foldl summarizeStep s) =
          sevPlacesSum s + issues.length := by
  induction issues with
  | nil => intro s; simp
  | cons i rest ih =>
    intro s
    rw [List.foldl_cons]
    obtain ⟨h1, h2⟩ := ih (summarizeStep s i)
    rw [h1, h2, summarizeStep_overall, summarizeStep_sevSum]
    constructor <;> simp <;> omega

/-- C7: the summary conserves the issue count — `overall.total_places` equals
the number of issues, and the severities' `places` sum to the number of
issues. -/
theorem summarize_conservation (issues : List AccessibilityIssue) :
    (group_and_summarize_issues_improved issues).overall.total_places =
        issues.length ∧
      sevPlacesSum (group_and_summarize_issues_improved issues) =
        issues.length := by
  obtain ⟨h1, h2⟩ := summarize_fold_invariant issues emptySummary
  unfold group_and_summarize_issues_improved
  rw [h1, h2]
  constructor <;> simp [emptySummary, sevPlacesSum]

/-! ## Aggregator: text/page and text-pattern grouping -/

/-- Python `truncated.rfind(' ')` (`none` for -1). -/
def rfindSpace (l : List Char) : Option ℕ :=
  (l.reverse.findIdx? fun c => c = ' ').map fun i => l.length - 1 - i

/-- `truncate_text_smart`: word-boundary-aware truncation — cut at the last
space of the first `max_length` characters when it falls past 70% of the
budget, else hard cut; always appends an ellipsis when truncating. -/
def truncate_text_smart (text : String) (max_length : ℕ := 50) : String :=
  if text.length ≤ max_length then text
  else
    let truncated := text.data.take max_length
    match rfindSpace truncated with
    | some i =>
      if (i : ℚ) > (max_length : ℚ) * 0.7 then strOf (truncated.take i) ++ "..."
      else strOf truncated ++ "..."
    | none => strOf truncated ++ "..."

/-- One `group_issues_by_text_and_page` group. -/
structure PageGroup where
  pages : List (ℤ × List AccessibilityIssue)
  total_count : ℕ
  first_issue : Option AccessibilityIssue
  issue_types : List String
  descriptions : List String
deriving DecidableEq

def PageGroup.empty : PageGroup := ⟨[], 0, none, [], []⟩

/-- The loop body of `group_issues_by_text_and_page`. -/
def pageStep (acc : List (String × PageGroup)) (issue : AccessibilityIssue) :
    List (String × PageGroup) :=
  let normalized_text := normalize_text_for_grouping issue.text
  if normalized_text.length < 3 then acc
  else
    updAssoc normalized_text PageGroup.empty (fun g =>
      { pages := updAssoc issue.page [] (· ++ [issue]) g.pages
        total_count := g.total_count + 1
        first_issue := match g.first_issue with
          | none => some issue
          | some i => some i
        issue_types := insertNew issue.issue_type g.issue_types
        descriptions := insertNew issue.description g.descriptions }) acc

/-- `group_issues_by_text_and_page`: canonical-key grouping with per-page
issue lists; no minimum-occurrence filtering. -/
def group_issues_by_text_and_page (issues : List AccessibilityIssue) :
    List (String × PageGroup) :=
  issues.foldl pageStep []

/-- One `group_issues_by_text_pattern` group (severity histogram over the
three emitted severities). -/
structure PatGroup where
  pages : List ℤ
  issues : List AccessibilityIssue
  total_words : ℕ
  issue_types : List String
  sev_high : ℕ
  sev_medium : ℕ
  sev_low : ℕ
  descriptions : List String
  font_info : List String
deriving DecidableEq

def PatGroup.empty : PatGroup := ⟨[], [], 0, [], 0, 0, 0, [], []⟩

/-- The grouping key of `group_issues_by_text_pattern` for one issue: the
canonical key, skipped when shorter than 5, truncated when longer than 50. -/
def patKey (issue : AccessibilityIssue) : Option String :=
  let text_key := normalize_text_for_grouping issue.text
  if text_key.length < 5 then none
  else if text_key.length > 50 then some (truncate_text_smart text_key 50)
  else some text_key

/-- The loop body of `group_issues_by_text_pattern` (pre-filter). -/
def patStep (acc : List (String × PatGroup)) (issue : AccessibilityIssue) :
    List (String × PatGroup) :=
  match patKey issue with
  | none => acc
  | some text_key =>
    updAssoc text_key PatGroup.empty (fun g =>
      { pages := insertNew issue.page g.pages
        issues := g.issues ++ [issue]
        total_words := g.total_words + count_words text_key
        issue_types := insertNew issue.issue_type g.issue_types
        sev_high := g.sev_high + (if issue.severity = Sev.high then 1 else 0)
        sev_medium := g.sev_medium + (if issue.severity = Sev.medium then 1 else 0)
        sev_low := g.sev_low + (if issue.severity = Sev.low then 1 else 0)
        descriptions := insertNew (takeStr issue.description 100) g.descriptions
        font_info := if issue.font_name ≠ "" ∧ issue.font_size ≠ 0 then
            insertNew (issue.font_name ++ " (" ++ formatFixed1 issue.font_size ++
              "pt)") g.font_info
          else g.font_info }) acc

/-- `group_issues_by_text_pattern`: canonical-key grouping, then the
noise-reduction filter keeping only groups on ≥ 2 distinct pages or with
≥ 3 occurrences (the source then decorates kept groups with sorted-page /
count fields, which are derived data). -/
def group_issues_by_text_pattern (issues : List AccessibilityIssue) :
    List (String × PatGroup) :=
  (issues.foldl patStep []).filter fun kv =>
    2 ≤ kv.2.pages.length ∨ 3 ≤ kv.2.issues.length

/-! ## C8: singleton canonical-key groups -/

theorem lookupA_updAssoc_eq {β : Type} (k : String) (d : β) (f : β → β) :
    ∀ l : List (String × β),
      lookupA k (updAssoc k d f l) = some (f ((lookupA k l).getD d))
  | [] => by simp [updAssoc, lookupA]
  | (k', v) :: t => by
    by_cases hk : k' = k
    · simp [updAssoc, lookupA, hk]
    · simp [updAssoc, lookupA, hk, lookupA_updAssoc_eq k d f t]

theorem lookupA_updAssoc_ne {β : Type} (k k' : String) (d : β) (f : β → β)
    (hne : k' ≠ k) :
    ∀ l : List (String × β), lookupA k' (updAssoc k d f l) = lookupA k' l
  | [] => by
    have hkk : ¬ k = k' := fun h => hne h.symm
    simp [updAssoc, lookupA, hkk]
  | (k'', v) :: t => by
    by_cases hk : k'' = k
    · subst hk
      have hkk : ¬ k'' = k' := fun h => hne h.symm
      simp [updAssoc, lookupA, hkk]
    · simp [updAssoc, lookupA, hk, lookupA_updAssoc_ne k k' d f hne t]

theorem insertNew_length_le {α : Type} [DecidableEq α] (x : α) (l : List α) :
    (insertNew x l).length ≤ l.length + 1 := by
  unfold insertNew
  split
  · omega
  · simp

/-- Issue count held by an optional pattern group. -/
def issLen : Option PatGroup → ℕ
  | none => 0
  | some g => g.issues.length

/-- Distinct-page count held by an optional pattern group. -/
def pgsLen : Option PatGroup → ℕ
  | none => 0
  | some g => g.pages.length

theorem patStep_lookup_ne (acc : List (String × PatGroup))
    (i : AccessibilityIssue) (k : String) (h : ¬ patKey i = some k) :
    lookupA k (patStep acc i) = lookupA k acc := by
  rcases hpk : patKey i with _ | k'
  · simp [patStep, hpk]
  · have hk : k ≠ k' := fun he => h (by rw [hpk, he])
    simp only [patStep, hpk]
    exact lookupA_updAssoc_ne k' k _ _ hk acc

theorem patStep_issLen (acc : List (String × PatGroup))
    (i : AccessibilityIssue) (k : String) (hpk : patKey i = some k) :
    issLen (lookupA k (patStep acc i)) = issLen (lookupA k acc) + 1 := by
  simp only [patStep, hpk]
  rw [lookupA_updAssoc_eq]
  rcases hl : lookupA k acc with _ | g <;> simp [issLen, PatGroup.empty]

theorem patStep_pgsLen (acc : List (String × PatGroup))
    (i : AccessibilityIssue) (k : String) (hpk : patKey i = some k) :
    pgsLen (lookupA k (patStep acc i)) ≤ pgsLen (lookupA k acc) + 1 := by
  simp only [patStep, hpk]
  rw [lookupA_updAssoc_eq]
  rcases hl : lookupA k acc with _ | g
  · simp [pgsLen, PatGroup.empty, insertNew]
  · have := insertNew_length_le i.page g.pages
    simp only [pgsLen, Option.getD_some]
    omega

theorem patFold_bound (issues : List AccessibilityIssue) :
    ∀ (acc : List (String × PatGroup)) (k : String),
      issLen (lookupA k (issues.foldl patStep acc)) ≤
          issLen (lookupA k acc) +
            issues.countP (fun i => patKey i = some k) ∧
        pgsLen (lookupA k (issues.foldl patStep acc)) ≤
          pgsLen (lookupA k acc) +
            issues.countP (fun i => patKey i = some k) := by
  induction issues with
  | nil => intro acc k; simp
  | cons i rest ih =>
    intro acc k
    rw [List.foldl_cons, List.countP_cons]
    obtain ⟨ih1, ih2⟩ := ih (patStep acc i) k
    by_cases hpk : patKey i = some k
    · have h1 := patStep_issLen acc i k hpk
      have h2 := patStep_pgsLen acc i k hpk
      have hite : (if (decide (patKey i = some k)) = true then 1 else 0) = 1 := by
        simp [hpk]
      rw [hite]
      constructor
      · exact le_trans ih1 (by omega)
      · exact le_trans ih2 (by omega)
    · have hl := patStep_lookup_ne acc i k hpk
      rw [hl] at ih1 ih2
      have hite : (if (decide (patKey i = some k)) = true then 1 else 0) = 0 := by
        simp [hpk]
      rw [hite]
      constructor
      · exact le_trans ih1 (by omega)
      · exact le_trans ih2 (by omega)

/-- Key uniqueness of an association list. -/
def keysND {β : Type} (l : List (String × β)) : Prop := (l.map Prod.fst).Nodup

theorem not_mem_keys_updAssoc {β : Type} (k k' : String) (d : β) (f : β → β)
    (hne : k' ≠ k) :
    ∀ m : List (String × β), k' ∉ m.map Prod.fst →
      k' ∉ (updAssoc k d f m).map Prod.fst
  | [], _ => by simp [updAssoc, hne]
  | (k'', v') :: t, h => by
    simp only [List.map_cons, List.mem_cons, not_or] at h
    by_cases h2 : k'' = k
    · subst h2
      simp only [updAssoc]
      rw [if_pos trivial]
      simp only [List.map_cons, List.mem_cons, not_or]
      exact ⟨h.1, h.2⟩
    · simp only [updAssoc]
      rw [if_neg h2]
      simp only [List.map_cons, List.mem_cons, not_or]
      exact ⟨h.1, not_mem_keys_updAssoc k k' d f hne t h.2⟩

theorem keysND_updAssoc {β : Type} (k : String) (d : β) (f : β → β) :
    ∀ l : List (String × β), keysND l → keysND (updAssoc k d f l)
  | [], _ => by simp [updAssoc, keysND]
  | (k', v) :: t, h => by
    rcases List.nodup_cons.mp h with ⟨hk', ht⟩
    by_cases hk : k' = k
    · subst hk
      simpa [updAssoc, keysND] using h
    · have hrec := keysND_updAssoc k d f t ht
      simp only [updAssoc, if_neg hk, keysND, List.map_cons, List.nodup_cons]
      exact ⟨not_mem_keys_updAssoc k k' d f hk t hk', hrec⟩

theorem lookupA_eq_of_mem {β : Type} (k : String) (g : β) :
    ∀ l : List (String × β), keysND l → (k, g) ∈ l → lookupA k l = some g
  | [], _, hm => by simp at hm
  | (k', v) :: t, hnd, hm => by
    rcases List.mem_cons.mp hm with he | ht
    · cases he
      simp [lookupA]
    · rcases List.nodup_cons.mp hnd with ⟨hk', hndt⟩
      have hkne : ¬ k' = k := by
        intro h
        subst h
        exact hk' (by simpa using List.mem_map_of_mem Prod.fst ht)
      simp only [lookupA, if_neg hkne]
      exact lookupA_eq_of_mem k g t hndt ht

theorem lookupA_mem {β : Type} (k : String) (g : β) :
    ∀ l : List (String × β), lookupA k l = some g → (k, g) ∈ l
  | [], h => by simp [lookupA] at h
  | (k', v) :: t, h => by
    by_cases hk : k' = k
    · subst hk
      rw [lookupA, if_pos rfl] at h
      obtain rfl := Option.some.inj h
      exact List.mem_cons_self _ _
    · rw [lookupA, if_neg hk] at h
      exact List.mem_cons_of_mem _ (lookupA_mem k g t h)

theorem keysND_patFold (issues : List AccessibilityIssue) :
    ∀ acc : List (String × PatGroup), keysND acc →
      keysND (issues.foldl patStep acc) := by
  induction issues with
  | nil => intro acc h; simpa
  | cons i rest ih =>
    intro acc h
    rw [List.foldl_cons]
    refine ih _ ?_
    rcases hpk : patKey i with _ | k'
    · simpa [patStep, hpk]
    · simp only [patStep, hpk]
      exact keysND_updAssoc k' _ _ acc h

theorem lookupA_filter_none {β : Type} (k : String)
    (q : String × β → Bool) :
    ∀ l : List (String × β), (∀ g : β, (k, g) ∈ l → q (k, g) = false) →
      lookupA k (l.filter q) = none
  | [], _ => rfl
  | (k', v) :: t, h => by
    by_cases hk : k' = k
    · subst hk
      rw [List.filter_cons, h v (by simp)]
      simp only [Bool.false_eq_true, if_false]
      exact lookupA_filter_none k' q t fun g hg => h g (List.mem_cons_of_mem _ hg)
    · rw [List.filter_cons]
      have hrec := lookupA_filter_none k q t fun g hg => h g (List.mem_cons_of_mem _ hg)
      by_cases hq : q (k', v) = true
      · rw [if_pos hq, lookupA, if_neg hk]
        exact hrec
      · rw [if_neg hq]
        exact hrec

theorem head?_dropWhile_not (p : Char → Bool) :
    ∀ (l : List Char) (x : Char), (l.dropWhile p).head? = some x → p x = false
  | [], x, h => by simp [List.dropWhile] at h
  | c :: t, x, h => by
    rw [List.dropWhile_cons] at h
    split at h
    · exact head?_dropWhile_not p t x h
    · rename_i hpc
      simp only [List.head?_cons, Option.some.injEq] at h
      subst h
      exact Bool.not_eq_true _ ▸ (by simpa using hpc)

/-- The canonical key never ends in one of the stripped trailing punctuation
characters. -/
theorem canonical_getLast_not_punct (t : String) (c : Char)
    (h : (normalize_text_for_grouping t).data.getLast? = some c) :
    ¬ c ∈ trailPunct := by
  unfold normalize_text_for_grouping at h
  by_cases ht : t = ""
  · rw [if_pos ht] at h
    subst ht
    simp at h
  · rw [if_neg ht] at h
    simp only [strOf] at h
    unfold rstripPunct at h
    rw [List.getLast?_reverse] at h
    have := head?_dropWhile_not (fun ch => ch ∈ trailPunct) _ c h
    simpa using this

/-- When `truncate_text_smart` actually truncates, the result ends in the
ellipsis dot. -/
theorem truncate_getLast (t : String) (h : ¬ t.length ≤ 50) :
    (truncate_text_smart t 50).data.getLast? = some '.' := by
  have hdots : ∀ l : List Char, (l ++ "...".data).getLast? = some '.' := by
    intro l
    rw [List.getLast?_append]
    rfl
  simp only [truncate_text_smart]
  rw [if_neg h]
  rcases hsp : rfindSpace (t.data.take 50) with _ | i
  · simp only [hsp]
    rw [String.data_append]
    exact hdots _
  · simp only [hsp]
    by_cases hgt : ((i : ℚ) > ((50 : ℕ) : ℚ) * 0.7)
    · rw [if_pos hgt, String.data_append]
      exact hdots _
    · rw [if_neg hgt, String.data_append]
      exact hdots _

/-- Every issue grouped under pattern key `k` either has canonical key `k`,
or `k` is a truncated key and ends in a dot. -/
theorem patKey_canonical_or_dot (i : AccessibilityIssue) (k : String)
    (h : patKey i = some k) :
    normalize_text_for_grouping i.text = k ∨ k.data.getLast? = some '.' := by
  simp only [patKey] at h
  split at h
  · exact absurd h (by simp)
  · split at h
    · right
      obtain rfl := Option.some.inj h
      exact truncate_getLast _ (by omega)
    · left
      exact Option.some.inj h

theorem lookupA_updAssoc_isSome {β : Type} (k k' : String) (d : β) (f : β → β)
    (l : List (String × β)) (h : (lookupA k' l).isSome = true) :
    (lookupA k' (updAssoc k d f l)).isSome = true := by
  by_cases hk : k' = k
  · subst hk
    rw [lookupA_updAssoc_eq]
    rfl
  · rw [lookupA_updAssoc_ne k k' d f hk]
    exact h

theorem lookupA_updAssoc_self_isSome {β : Type} (k : String) (d : β) (f : β → β)
    (l : List (String × β)) :
    (lookupA k (updAssoc k d f l)).isSome = true := by
  rw [lookupA_updAssoc_eq]
  rfl

theorem pageFold_presence (issues : List AccessibilityIssue) :
    ∀ (acc : List (String × PageGroup)) (k : String),
      ((∃ i ∈ issues, normalize_text_for_grouping i.text = k ∧ 3 ≤ k.length) ∨
        (lookupA k acc).isSome = true) →
      (lookupA k (issues.foldl pageStep acc)).isSome = true := by
  induction issues with
  | nil =>
    intro acc k h
    rcases h with ⟨i, hi, -⟩ | h
    · simp at hi
    · simpa using h
  | cons i rest ih =>
    intro acc k h
    rw [List.foldl_cons]
    rcases h with ⟨j, hj, hjk, hklen⟩ | hacc
    · rcases List.mem_cons.mp hj with rfl | hjrest
      · apply ih
        right
        have hlen : ¬ (normalize_text_for_grouping j.text).length < 3 := by
          rw [hjk]
          omega
        simp only [pageStep, if_neg hlen]
        rw [hjk]
        exact lookupA_updAssoc_self_isSome k _ _ acc
      · exact ih (pageStep acc i) k (Or.inl ⟨j, hjrest, hjk, hklen⟩)
    · apply ih
      right
      by_cases hlen : (normalize_text_for_grouping i.text).length < 3
      · simpa [pageStep, hlen] using hacc
      · simp only [pageStep, if_neg hlen]
        exact lookupA_updAssoc_isSome _ k _ _ acc hacc

/-- C8 (amended): a canonical-key group with exactly one occurrence (hence on
exactly one page), whose canonical key has at least 3 characters, is absent
from `group_issues_by_text_pattern`'s mapping but present in
`group_issues_by_text_and_page`'s mapping. -/
theorem singleton_group_filtering (issues : List AccessibilityIssue)
    (k : String)
    (H1 : (issues.filter fun i =>
      normalize_text_for_grouping i.text = k).length = 1)
    (H2 : 3 ≤ k.length) :
    lookupA k (group_issues_by_text_pattern issues) = none ∧
      (lookupA k (group_issues_by_text_and_page issues)).isSome = true := by
  have hex : ∃ i₀ ∈ issues, normalize_text_for_grouping i₀.text = k := by
    rcases hfe : issues.filter (fun i => normalize_text_for_grouping i.text = k)
      with _ | ⟨i₀, t⟩
    · rw [hfe] at H1
      simp at H1
    · have hmem : i₀ ∈ issues.filter
          (fun i => normalize_text_for_grouping i.text = k) := by
        rw [hfe]
        exact List.mem_cons_self _ _
      rw [List.mem_filter] at hmem
      exact ⟨i₀, hmem.1, of_decide_eq_true hmem.2⟩
  obtain ⟨i₀, hi₀, hk₀⟩ := hex
  constructor
  · have hknodot : ¬ (k.data.getLast? = some '.') := by
      intro hdot
      exact canonical_getLast_not_punct i₀.text '.'
        (by rw [hk₀]; exact hdot) (by decide)
    have hcnt : issues.countP (fun i => patKey i = some k) ≤ 1 := by
      have hmono : issues.countP (fun i => patKey i = some k) ≤
          issues.countP (fun i => normalize_text_for_grouping i.text = k) := by
        apply List.countP_mono_left
        intro i hi hp
        rcases patKey_canonical_or_dot i k (of_decide_eq_true hp) with h | h
        · exact decide_eq_true h
        · exact absurd h hknodot
      have heq : issues.countP (fun i => normalize_text_for_grouping i.text = k) =
          (issues.filter fun i => normalize_text_for_grouping i.text = k).length :=
        List.countP_eq_length_filter _ _
      omega
    obtain ⟨hIss, hPgs⟩ := patFold_bound issues [] k
    have hbase : lookupA k ([] : List (String × PatGroup)) = none := rfl
    rw [hbase] at hIss hPgs
    unfold group_issues_by_text_pattern
    apply lookupA_filter_none
    intro g hg
    have hlk : lookupA k (issues.foldl patStep []) = some g :=
      lookupA_eq_of_mem k g _ (keysND_patFold issues [] (by simp [keysND])) hg
    rw [hlk] at hIss hPgs
    simp only [issLen, pgsLen] at hIss hPgs
    apply decide_eq_false
    intro hcond
    rcases hcond with h2p | h3i
    · have hp : 2 ≤ g.pages.length := h2p
      omega
    · have hi : 3 ≤ g.issues.length := h3i
      omega
  · exact pageFold_presence issues [] k (Or.inl ⟨i₀, hi₀, hk₀, H2⟩)

/-- A minimal concrete issue with the given display text. -/
def mkTextIssue (t : String) : AccessibilityIssue :=
  { page := 1, x := 0, y := 0, text := t, issue_type := "Размер шрифта",
    description := "d", severity := Sev.medium }

/-- Witness for the amended C8 theorem at a one-issue list with canonical
key "abc". -/
theorem singleton_group_filtering_witness :
    lookupA "abc" (group_issues_by_text_pattern [mkTextIssue "abc"]) = none ∧
      (lookupA "abc"
        (group_issues_by_text_and_page [mkTextIssue "abc"])).isSome = true :=
  singleton_group_filtering [mkTextIssue "abc"] "abc" (by decide) (by decide)

/-- C8 counterexample: a singleton canonical-key group whose key "ab" is
shorter than 3 characters is skipped by `group_issues_by_text_and_page` too,
so it is **not** present in that mapping, contrary to the claim. -/
theorem singleton_group_filtering_counterexample :
    ((([mkTextIssue "ab"] : List AccessibilityIssue).filter
        fun i => normalize_text_for_grouping i.text = "ab").length = 1) ∧
      lookupA "ab" (group_issues_by_text_and_page [mkTextIssue "ab"]) = none := by
  decide

end PdfA11y
